import Mathlib

/-!
Shallow embedding of `src/services/marketDataService.ts` from the
trade-journal-dashboard repository, together with proofs about the
specification's claims on the market-data subscription layer.

The embedding covers:
* `toMarketSymbolData` — the tick decoder building a `MarketSymbolData`
  quote from a raw Binance ticker payload;
* the `onmessage` handler logic (`processMsg`): JSON parse failure and
  the truthiness guard `!data || !data.s || !data.c`, the in-place
  update `dataMap[data.s] = ...`, and the callback invocation;
* the module-level connection lifecycle of `subscribeMarketData`
  (`currentWs`, the `previousWs` capture, the close-on-open handler,
  the `onclose` handler, and the returned unsubscribe closure), as a
  small event system (`ServiceState`, `step`, `run`).

JavaScript particulars mirrored here:
* `filter(Boolean)` on strings drops exactly the empty string;
* `!data.s` is true when the field is absent or the empty string;
* `data.l ?? data.c` is nullish-coalescing: only an absent field
  defaults, the empty string does not;
* a JS object assignment `m[k] = v` replaces the entry in place when
  the key exists and appends otherwise (insertion order kept);
* `WebSocket.close()` on an already closing/closed socket does nothing
  and never throws; message events fire only while the socket is open
  (once `close()` is called no further `onmessage` fires); the `open`
  event precedes every `message` event of the same socket.
-/

/-- The `MarketSymbolData` record from `components/constants/types.ts`. -/
structure MarketSymbolData where
  symbol : String
  last : String
  last_btc : String
  lowest : String
  highest : String
  date : String
  daily_change_percentage : String
  source_exchange : String
deriving DecidableEq, Repr

/-- `MarketDataMap`: a JS object keyed by symbol, modelled as an
insertion-ordered association list. -/
abbrev MarketDataMap := List (String × MarketSymbolData)

/-- The raw Binance ticker payload fields (`s`, `c`, `h`, `l`, `v`, `P`),
each possibly absent. -/
structure RawTicker where
  s : Option String
  c : Option String
  h : Option String
  l : Option String
  v : Option String
  P : Option String
deriving DecidableEq, Repr

/-- One wire payload handed to `ws.onmessage`: either text that
`JSON.parse` rejects, or a parsed value whose `data` field may be
absent (`message?.data`). -/
inductive Payload where
  | malformed
  | parsed (data : Option RawTicker)
deriving DecidableEq, Repr

/-- JS truthiness of an optional string field: `!x` is true exactly when
the field is absent or the empty string. -/
def jsTruthy : Option String → Bool
  | none => false
  | some s => s ≠ ""

/-- `toMarketSymbolData` from `marketDataService.ts` (lines 14-32).
The decode time (`new Date().toISOString()`) is passed in as `now`. -/
def toMarketSymbolData (now : String) (s c : String) (h l P : Option String) :
    MarketSymbolData :=
  { symbol := s
    last := c
    last_btc := "1"
    lowest := l.getD c
    highest := h.getD c
    date := now
    daily_change_percentage := P.getD "0"
    source_exchange := "binance" }

/-- JS object assignment `m[k] = v`: replace in place when the key is
present, append otherwise. -/
def setKey : MarketDataMap → String → MarketSymbolData → MarketDataMap
  | [], k, v => [(k, v)]
  | (k', v') :: rest, k, v =>
      if k' = k then (k, v) :: rest else (k', v') :: setKey rest k v

/-- JS object read `m[k]`. -/
def lookupKey : MarketDataMap → String → Option MarketSymbolData
  | [], _ => none
  | (k', v') :: rest, k => if k' = k then some v' else lookupKey rest k

/-- The guard of the `onmessage` handler:
`!data || !data.s || !data.c` negated. -/
def payloadValid : Payload → Bool
  | .malformed => false
  | .parsed none => false
  | .parsed (some d) => jsTruthy d.s && jsTruthy d.c

/-- The body of `ws.onmessage` (lines 72-83) acting on the session's
`dataMap`.  Returns the new map together with `some sym` when the
message was folded and the callback invoked with the new snapshot
(`sym` the key written), or `none` when the message was discarded. -/
def processMsg (dataMap : MarketDataMap) (payload : Payload) (now : String) :
    MarketDataMap × Option String :=
  match payload with
  | .malformed => (dataMap, none)
  | .parsed none => (dataMap, none)
  | .parsed (some d) =>
      match d.s, d.c with
      | some s, some c =>
          if s ≠ "" ∧ c ≠ "" then
            (setKey dataMap s (toMarketSymbolData now s c d.h d.l d.P), some s)
          else (dataMap, none)
      | some _, none => (dataMap, none)
      | none, _ => (dataMap, none)

/-- A decoded-side view of one valid-shaped tick: the fields of the
wire message plus the decode time. -/
structure Tick where
  s : String
  c : String
  h : Option String
  l : Option String
  P : Option String
  now : String
deriving DecidableEq, Repr

/-- A tick is valid when its symbol and last-price fields are JS-truthy. -/
def validTick (t : Tick) : Prop := t.s ≠ "" ∧ t.c ≠ ""

instance (t : Tick) : Decidable (validTick t) := by
  unfold validTick; infer_instance

/-- Embed a tick as the wire payload the handler receives. -/
def tickPayload (t : Tick) : Payload :=
  .parsed (some ⟨some t.s, some t.c, t.h, t.l, none, t.P⟩)

/-- The quote `toMarketSymbolData` builds from a tick. -/
def mkQuote (t : Tick) : MarketSymbolData :=
  toMarketSymbolData t.now t.s t.c t.h t.l t.P

/-- Folding a sequence of inbound messages into a session's `dataMap`,
exactly as consecutive `onmessage` invocations do, starting from the
fresh `const dataMap = {}`. -/
def foldTicks (ms : List Tick) : MarketDataMap :=
  ms.foldl (fun m t => (processMsg m (tickPayload t) t.now).1) []

/-- JS `String.prototype.trim()`: strip whitespace from both ends.
Modelled structurally over the character list so that the kernel can
evaluate it (Lean's own `String.trim` is defined by well-founded
recursion over byte positions and does not reduce under `decide`). -/
def jsTrim (s : String) : String :=
  ⟨((s.data.dropWhile Char.isWhitespace).reverse.dropWhile
      Char.isWhitespace).reverse⟩

/-- JS `String.prototype.toUpperCase()` on the ASCII range, modelled
structurally over the character list. -/
def jsToUpper (s : String) : String :=
  ⟨s.data.map Char.toUpper⟩

/-- Line 43: `symbols.map((s) => s.trim().toUpperCase()).filter(Boolean)`. -/
def trimSymbols (symbols : List String) : List String :=
  (symbols.map (fun s => jsToUpper (jsTrim s))).filter (fun s => s ≠ "")

/-- Lifecycle state of one `WebSocket` object.  `closed` covers both the
closing and the closed browser states: once `close()` has been called
(or the remote end closed the socket) no further `message` or `open`
event fires, and a further `close()` is a no-op. -/
inductive ConnState where
  | connecting
  | opened
  | closed
deriving DecidableEq, Repr

/-- One call of `subscribeMarketData` with a non-empty trimmed symbol
list: its `WebSocket` (by id), the `previousWs` captured at call time,
the stream list of the subscription request, and the session-local
`dataMap`.  `seen` is a ghost field recording, in arrival order, the
symbol of every message this session folded; the code does not store
it, and no step reads it. -/
structure Session where
  ws : Nat
  previousWs : Option Nat
  syms : List String
  dataMap : MarketDataMap
  seen : List String
deriving DecidableEq, Repr

/-- The cleanup closure returned by `subscribeMarketData`: either the
no-op `() => {}` of the empty-symbols path, or the closure capturing
`ws` and `previousWs` (lines 95-103). -/
inductive Handle where
  | noop
  | conn (ws : Nat) (previousWs : Option Nat)
deriving DecidableEq, Repr

/-- One invocation of the caller's `callback`.  `ws` tags the session
whose handler fired (`none` for the immediate `callback({})` of the
empty-symbols path) and `snap` is the snapshot handed over.  `prevOk`
and `freshOk` are ghost fields recorded at delivery time: `prevOk`
says the delivering session's `previousWs` connection (if any) is
closed, `freshOk` says every key of the snapshot is a symbol of a
message this same session folded.  No step reads them. -/
structure Delivery where
  ws : Option Nat
  snap : MarketDataMap
  prevOk : Bool
  freshOk : Bool
deriving DecidableEq, Repr

/-- State of the module: the lifecycle state of every created socket
(ids are allocated from `nextId`; ids never created count as closed),
the module-level `currentWs`, the sessions and handles created so far,
and the log of callback invocations. -/
structure ServiceState where
  conns : Nat → ConnState
  currentWs : Option Nat
  sessions : List Session
  handles : List Handle
  deliveries : List Delivery
  nextId : Nat

def setConn (f : Nat → ConnState) (c : Nat) (v : ConnState) :
    Nat → ConnState :=
  fun n => if n = c then v else f n

/-- `x?.close()`: close the socket when the reference is non-null. -/
def closeOpt (f : Nat → ConnState) : Option Nat → Nat → ConnState
  | none => f
  | some c => setConn f c ConnState.closed

/-- External stimuli: an API call of `subscribeMarketData`, the browser
firing `open`/`message` on a socket, the remote end closing a socket
(which also runs the `onclose` handler of lines 89-93), or the caller
invoking the cleanup returned by the `i`-th `subscribeMarketData`
call. -/
inductive Event where
  | subscribe (symbols : List String)
  | wsOpen (c : Nat)
  | wsMessage (c : Nat) (payload : Payload) (now : String)
  | wsRemoteClose (c : Nat)
  | unsub (i : Nat)

/-- The cleanup closure (lines 95-103): close `ws` and null `currentWs`
when this session is still current, then close `previousWs` if it was
captured non-null.  Closing an already closed socket changes nothing. -/
def handleRun (st : ServiceState) : Handle → ServiceState
  | .noop => st
  | .conn c prev =>
      let st1 :=
        if st.currentWs = some c then
          { st with conns := setConn st.conns c ConnState.closed
                    currentWs := none }
        else st
      match prev with
      | none => st1
      | some p => { st1 with conns := setConn st1.conns p ConnState.closed }

/-- The ghost `prevOk` computation: is the session's `previousWs`
connection absent or closed right now? -/
def prevOkB (st : ServiceState) (s : Session) : Bool :=
  match s.previousWs with
  | none => true
  | some p => match st.conns p with
      | ConnState.closed => true
      | _ => false

/-- The in-place mutation `dataMap[data.s] = ...` seen from the session
list: the session owning socket `c` gets the new map (and extends its
ghost `seen`), all others are untouched. -/
def updSession (c : Nat) (newMap : MarketDataMap) (newSeen : List String)
    (s : Session) : Session :=
  if s.ws = c then { s with dataMap := newMap, seen := newSeen } else s

/-- One event of the system.  `subscribe` mirrors lines 43-103:
trim/uppercase/filter the symbols; on the empty result close the
previous socket, null `currentWs`, invoke the callback once with `{}`
and hand back a no-op cleanup; otherwise create a fresh socket, make
it current, and start a fresh session with an empty `dataMap`.
`wsOpen` fires the `onopen` handler (close `previousWs`), `wsMessage`
the `onmessage` handler, `wsRemoteClose` the `onclose` handler.
Events that cannot occur (opening a socket that is not connecting,
a message on a socket that is not open, an out-of-range cleanup
index) leave the state unchanged. -/
def step (st : ServiceState) : Event → ServiceState
  | .subscribe symbols =>
      let trimmed := trimSymbols symbols
      let previousWs := st.currentWs
      if trimmed = [] then
        { st with
            conns := closeOpt st.conns previousWs
            currentWs := none
            deliveries := st.deliveries ++ [⟨none, [], true, true⟩]
            handles := st.handles ++ [Handle.noop] }
      else
        { st with
            conns := setConn st.conns st.nextId ConnState.connecting
            currentWs := some st.nextId
            sessions := st.sessions ++ [⟨st.nextId, previousWs, trimmed, [], []⟩]
            handles := st.handles ++ [Handle.conn st.nextId previousWs]
            nextId := st.nextId + 1 }
  | .wsOpen c =>
      if st.conns c = ConnState.connecting then
        match st.sessions.find? (fun s => s.ws = c) with
        | some sess =>
            { st with conns :=
                closeOpt (setConn st.conns c ConnState.opened) sess.previousWs }
        | none => { st with conns := setConn st.conns c ConnState.opened }
      else st
  | .wsMessage c payload now =>
      if st.conns c = ConnState.opened then
        match st.sessions.find? (fun s => s.ws = c) with
        | some sess =>
            match processMsg sess.dataMap payload now with
            | (newMap, some sym) =>
                let newSeen := sess.seen ++ [sym]
                { st with
                    sessions := st.sessions.map (updSession c newMap newSeen)
                    deliveries := st.deliveries ++
                      [⟨some c, newMap, prevOkB st sess,
                        (newMap.map Prod.fst).all (fun k => newSeen.contains k)⟩] }
            | (_, none) => st
        | none => st
      else st
  | .wsRemoteClose c =>
      if st.conns c = ConnState.connecting ∨ st.conns c = ConnState.opened then
        { st with
            conns := setConn st.conns c ConnState.closed
            currentWs := if st.currentWs = some c then none else st.currentWs }
      else st
  | .unsub i =>
      match st.handles[i]? with
      | some h => handleRun st h
      | none => st

/-- The module state at load time: no socket, `currentWs = null`. -/
def init : ServiceState :=
  { conns := fun _ => ConnState.closed
    currentWs := none
    sessions := []
    handles := []
    deliveries := []
    nextId := 0 }

/-- Run a sequence of events from the initial state. -/
def run (st : ServiceState) (evs : List Event) : ServiceState :=
  evs.foldl step st

/-- `g` differs from `f` only by closing sockets. -/
def OnlyCloses (f g : Nat → ConnState) : Prop :=
  ∀ n, g n = f n ∨ g n = ConnState.closed

/-- Concrete data used by the claim witnesses and counterexamples. -/
def tickBTC1 : Tick := ⟨"BTCUSDT", "100", some "110", some "90", some "5", "T0"⟩

def tickBTC2 : Tick := ⟨"BTCUSDT", "200", none, none, none, "T1"⟩

def tickLower : Tick := ⟨"btcusdt", "1", none, none, none, "T0"⟩

def tickA : Tick := ⟨"A", "1", none, none, none, "T0"⟩

def tickSpec : Tick := ⟨"BTCUSDT", "63500.00", none, none, some "-1.2", "T0"⟩

def tickEth : Tick := ⟨"ETHUSDT", "2", none, none, none, "T1"⟩

def evsOne : List Event :=
  [.subscribe ["a"], .wsOpen 0, .wsMessage 0 (tickPayload tickA) "T0"]

def quoteA : MarketSymbolData := ⟨"A", "1", "1", "1", "1", "T0", "0", "binance"⟩

def delivA : Delivery := ⟨some 0, [("A", quoteA)], true, true⟩

/-- The inductive invariant of the module state, carried through every
event.  `opened_prev` is the claim-C1/C2 heart: a session whose socket
has reached the open state has already closed its `previousWs`.
`deliv_ok` records that every logged callback invocation satisfied the
two ghost checks at the moment it fired. -/
structure StInv (st : ServiceState) : Prop where
  ws_lt : ∀ s ∈ st.sessions, s.ws < st.nextId
  ws_inj : ∀ s ∈ st.sessions, ∀ s' ∈ st.sessions, s.ws = s'.ws → s = s'
  prev_lt : ∀ s ∈ st.sessions, ∀ p, s.previousWs = some p → p < st.nextId
  opened_prev : ∀ s ∈ st.sessions, st.conns s.ws = ConnState.opened →
    ∀ p, s.previousWs = some p → st.conns p = ConnState.closed
  keys_seen : ∀ s ∈ st.sessions, ∀ k ∈ s.dataMap.map Prod.fst, k ∈ s.seen
  deliv_ok : ∀ d ∈ st.deliveries, d.prevOk = true ∧ d.freshOk = true
  cur_next : ∀ d, st.currentWs = some d → d + 1 = st.nextId
  handle_wf : ∀ h ∈ st.handles, ∀ c p, h = Handle.conn c p →
    c < st.nextId ∧ ∀ q, p = some q → q < c

theorem processMsg_valid (m : MarketDataMap) (t : Tick) (now : String)
    (ht : validTick t) :
    processMsg m (tickPayload t) now =
      (setKey m t.s (toMarketSymbolData now t.s t.c t.h t.l t.P), some t.s) := by
  simp [processMsg, tickPayload, ht.1, ht.2]

theorem lookup_setKey_same (m : MarketDataMap) (k : String)
    (v : MarketSymbolData) : lookupKey (setKey m k v) k = some v := by
  induction m with
  | nil => simp [setKey, lookupKey]
  | cons p rest ih =>
      by_cases h : p.1 = k
      · simp [setKey, lookupKey, h]
      · simp [setKey, lookupKey, h, ih]

theorem lookup_setKey_other (m : MarketDataMap) (k k' : String)
    (v : MarketSymbolData) (hne : k' ≠ k) :
    lookupKey (setKey m k v) k' = lookupKey m k' := by
  induction m with
  | nil => simp [setKey, lookupKey, Ne.symm hne]
  | cons p rest ih =>
      by_cases h : p.1 = k
      · subst h
        simp [setKey, lookupKey, Ne.symm hne]
      · by_cases h' : p.1 = k'
        · subst h'
          simp [setKey, lookupKey, h]
        · simp [setKey, lookupKey, h, h', ih]

theorem keys_setKey (m : MarketDataMap) (k : String) (v : MarketSymbolData) :
    ∀ k' ∈ (setKey m k v).map Prod.fst, k' = k ∨ k' ∈ m.map Prod.fst := by
  induction m with
  | nil => simp [setKey]
  | cons p rest ih =>
      by_cases h : p.1 = k
      · simp only [setKey, h, if_true, List.map_cons, List.mem_cons]
        rintro k' (rfl | hk')
        · exact Or.inl rfl
        · exact Or.inr (Or.inr hk')
      · simp only [setKey, h, if_false, List.map_cons, List.mem_cons]
        rintro k' (rfl | hk')
        · exact Or.inr (Or.inl rfl)
        · rcases ih k' hk' with h1 | h1
          · exact Or.inl h1
          · exact Or.inr (Or.inr h1)

theorem foldTicks_concat (ms : List Tick) (t : Tick) :
    foldTicks (ms ++ [t]) =
      (processMsg (foldTicks ms) (tickPayload t) t.now).1 := by
  simp [foldTicks, List.foldl_append]

theorem onlyCloses_refl (f : Nat → ConnState) : OnlyCloses f f :=
  fun _ => Or.inl rfl

theorem onlyCloses_setConn (f : Nat → ConnState) (c : Nat) :
    OnlyCloses f (setConn f c ConnState.closed) := by
  intro n; unfold setConn; by_cases h : n = c <;> simp [h]

theorem onlyCloses_closeOpt (f : Nat → ConnState) (o : Option Nat) :
    OnlyCloses f (closeOpt f o) := by
  cases o with
  | none => exact onlyCloses_refl f
  | some c => exact onlyCloses_setConn f c

theorem onlyCloses_trans {f g h : Nat → ConnState} (h1 : OnlyCloses f g)
    (h2 : OnlyCloses g h) : OnlyCloses f h := by
  intro n
  rcases h2 n with e | e
  · rw [e]; exact h1 n
  · exact Or.inr e

theorem OnlyCloses.closed_mono {f g : Nat → ConnState} (h : OnlyCloses f g)
    {n : Nat} (hn : f n = ConnState.closed) : g n = ConnState.closed := by
  rcases h n with e | e
  · rw [e, hn]
  · exact e

theorem OnlyCloses.opened_inv {f g : Nat → ConnState} (h : OnlyCloses f g)
    {n : Nat} (hn : g n = ConnState.opened) : f n = ConnState.opened := by
  rcases h n with e | e
  · rw [← e, hn]
  · rw [hn] at e; exact absurd e (by decide)

theorem stInv_init : StInv init := by
  refine ⟨?_, ?_, ?_, ?_, ?_, ?_, ?_, ?_⟩ <;> simp [init]

/-- The invariant survives any step that only closes sockets, keeps
sessions and `nextId`, at most appends a no-op handle and an
empty-snapshot delivery, and keeps or nulls `currentWs`. -/
theorem stInv_stable (st st' : ServiceState)
    (hc : OnlyCloses st.conns st'.conns)
    (hs : st'.sessions = st.sessions)
    (hn : st'.nextId = st.nextId)
    (hcur : st'.currentWs = st.currentWs ∨ st'.currentWs = none)
    (hh : st'.handles = st.handles ∨
      st'.handles = st.handles ++ [Handle.noop])
    (hd : st'.deliveries = st.deliveries ∨
      st'.deliveries = st.deliveries ++ [⟨none, [], true, true⟩])
    (hI : StInv st) : StInv st' := by
  constructor
  · rw [hs, hn]; exact hI.ws_lt
  · rw [hs]; exact hI.ws_inj
  · rw [hs, hn]; exact hI.prev_lt
  · rw [hs]
    intro s hsm hop p hp
    exact hc.closed_mono (hI.opened_prev s hsm (hc.opened_inv hop) p hp)
  · rw [hs]; exact hI.keys_seen
  · rcases hd with e | e <;> rw [e]
    · exact hI.deliv_ok
    · intro d hdm
      rcases List.mem_append.1 hdm with h1 | h1
      · exact hI.deliv_ok d h1
      · simp only [List.mem_singleton] at h1
        subst h1; exact ⟨rfl, rfl⟩
  · intro d hdm
    rcases hcur with e | e
    · rw [e] at hdm
      rw [hn]; exact hI.cur_next d hdm
    · rw [e] at hdm; simp at hdm
  · rcases hh with e | e <;> rw [e, hn]
    · exact hI.handle_wf
    · intro h hm c p hcp
      rcases List.mem_append.1 hm with h1 | h1
      · exact hI.handle_wf h h1 c p hcp
      · simp only [List.mem_singleton] at h1
        subst h1; exact absurd hcp (by simp)

/-- `handleRun` only closes sockets, leaves sessions, handles,
deliveries and `nextId` alone, and keeps or nulls `currentWs`. -/
theorem handleRun_spec (st : ServiceState) (h : Handle) :
    OnlyCloses st.conns (handleRun st h).conns ∧
    (handleRun st h).sessions = st.sessions ∧
    (handleRun st h).handles = st.handles ∧
    (handleRun st h).deliveries = st.deliveries ∧
    (handleRun st h).nextId = st.nextId ∧
    ((handleRun st h).currentWs = st.currentWs ∨
      (handleRun st h).currentWs = none) := by
  cases h with
  | noop => exact ⟨onlyCloses_refl _, rfl, rfl, rfl, rfl, Or.inl rfl⟩
  | conn c prev =>
      simp only [handleRun]
      by_cases hcur : st.currentWs = some c
      · rw [if_pos hcur]
        cases prev with
        | none =>
            exact ⟨onlyCloses_setConn _ _, rfl, rfl, rfl, rfl, Or.inr rfl⟩
        | some p =>
            exact ⟨onlyCloses_trans (onlyCloses_setConn _ _)
              (onlyCloses_setConn _ _), rfl, rfl, rfl, rfl, Or.inr rfl⟩
      · rw [if_neg hcur]
        cases prev with
        | none =>
            exact ⟨onlyCloses_refl _, rfl, rfl, rfl, rfl, Or.inl rfl⟩
        | some p =>
            exact ⟨onlyCloses_setConn _ _, rfl, rfl, rfl, rfl, Or.inl rfl⟩

theorem setConn_self (f : Nat → ConnState) (c : Nat) (v : ConnState) :
    setConn f c v c = v := by simp [setConn]

theorem setConn_other (f : Nat → ConnState) (c : Nat) (v : ConnState)
    {n : Nat} (h : n ≠ c) : setConn f c v n = f n := by simp [setConn, h]

theorem updSession_ws (c : Nat) (nm : MarketDataMap) (ns : List String)
    (s : Session) : (updSession c nm ns s).ws = s.ws := by
  unfold updSession; by_cases h : s.ws = c <;> simp [h]

theorem updSession_prev (c : Nat) (nm : MarketDataMap) (ns : List String)
    (s : Session) : (updSession c nm ns s).previousWs = s.previousWs := by
  unfold updSession; by_cases h : s.ws = c <;> simp [h]

/-- A message the handler folds always writes through `setKey` at the
symbol it reports. -/
theorem processMsg_some {m m' : MarketDataMap} {p : Payload} {now : String}
    {sym : String} (h : processMsg m p now = (m', some sym)) :
    ∃ q, m' = setKey m sym q := by
  cases p with
  | malformed => simp [processMsg] at h
  | parsed d =>
      cases d with
      | none => simp [processMsg] at h
      | some r =>
          rcases hrs : r.s with _ | s <;> rcases hrc : r.c with _ | c <;>
            simp only [processMsg, hrs, hrc] at h
          · simp at h
          · simp at h
          · simp at h
          · by_cases hv : s ≠ "" ∧ c ≠ ""
            · rw [if_pos hv] at h
              injection h with h1 h2
              injection h2 with h2
              subst h2
              exact ⟨_, h1.symm⟩
            · rw [if_neg hv] at h
              simp at h

theorem prevOkB_true (st : ServiceState) (s : Session)
    (h : ∀ p, s.previousWs = some p → st.conns p = ConnState.closed) :
    prevOkB st s = true := by
  cases hp : s.previousWs with
  | none => simp [prevOkB, hp]
  | some p => simp [prevOkB, hp, h p hp]

/-- Invariant preservation for `subscribe`. -/
theorem stInv_step_subscribe (st : ServiceState) (symbols : List String)
    (hI : StInv st) : StInv (step st (.subscribe symbols)) := by
  by_cases htr : trimSymbols symbols = []
  · have hstep : step st (.subscribe symbols) = { st with
        conns := closeOpt st.conns st.currentWs
        currentWs := none
        deliveries := st.deliveries ++ [⟨none, [], true, true⟩]
        handles := st.handles ++ [Handle.noop] } := by
      simp [step, htr]
    rw [hstep]
    exact stInv_stable st _ (onlyCloses_closeOpt _ _) rfl rfl (Or.inr rfl)
      (Or.inr rfl) (Or.inr rfl) hI
  · have hstep : step st (.subscribe symbols) = { st with
        conns := setConn st.conns st.nextId ConnState.connecting
        currentWs := some st.nextId
        sessions := st.sessions ++
          [⟨st.nextId, st.currentWs, trimSymbols symbols, [], []⟩]
        handles := st.handles ++ [Handle.conn st.nextId st.currentWs]
        nextId := st.nextId + 1 } := by
      simp [step, htr]
    rw [hstep]
    refine ⟨?_, ?_, ?_, ?_, ?_, ?_, ?_, ?_⟩ <;> (try dsimp only)
    · intro s hs
      rcases List.mem_append.1 hs with h1 | h1
      · exact Nat.lt_trans (hI.ws_lt s h1) (Nat.lt_succ_self _)
      · simp only [List.mem_singleton] at h1
        subst h1; exact Nat.lt_succ_self _
    · intro s hs s' hs' he
      rcases List.mem_append.1 hs with h1 | h1 <;>
        rcases List.mem_append.1 hs' with h2 | h2
      · exact hI.ws_inj s h1 s' h2 he
      · simp only [List.mem_singleton] at h2
        subst h2
        exact absurd he (Nat.ne_of_lt (hI.ws_lt s h1))
      · simp only [List.mem_singleton] at h1
        subst h1
        exact absurd he.symm (Nat.ne_of_lt (hI.ws_lt s' h2))
      · simp only [List.mem_singleton] at h1 h2
        rw [h1, h2]
    · intro s hs p hp
      rcases List.mem_append.1 hs with h1 | h1
      · exact Nat.lt_trans (hI.prev_lt s h1 p hp) (Nat.lt_succ_self _)
      · simp only [List.mem_singleton] at h1
        subst h1
        have := hI.cur_next p hp
        omega
    · intro s hs hop p hp
      rcases List.mem_append.1 hs with h1 | h1
      · have hne : s.ws ≠ st.nextId := Nat.ne_of_lt (hI.ws_lt s h1)
        rw [setConn_other _ _ _ hne] at hop
        have hpc := hI.opened_prev s h1 hop p hp
        have hpne : p ≠ st.nextId := Nat.ne_of_lt (hI.prev_lt s h1 p hp)
        rw [setConn_other _ _ _ hpne]
        exact hpc
      · simp only [List.mem_singleton] at h1
        subst h1
        rw [setConn_self] at hop
        exact absurd hop (by decide)
    · intro s hs k hk
      rcases List.mem_append.1 hs with h1 | h1
      · exact hI.keys_seen s h1 k hk
      · simp only [List.mem_singleton] at h1
        subst h1
        simp at hk
    · exact hI.deliv_ok
    · intro d hd
      injection hd with h1
      omega
    · intro h hm c p hcp
      rcases List.mem_append.1 hm with h1 | h1
      · obtain ⟨hc1, hc2⟩ := hI.handle_wf h h1 c p hcp
        exact ⟨Nat.lt_trans hc1 (Nat.lt_succ_self _), hc2⟩
      · simp only [List.mem_singleton] at h1
        subst h1
        injection hcp with e1 e2
        subst e1
        subst e2
        refine ⟨Nat.lt_succ_self _, ?_⟩
        intro q hq
        have := hI.cur_next q hq
        omega

/-- Invariant preservation for the `open` event. -/
theorem stInv_step_wsOpen (st : ServiceState) (c : Nat) (hI : StInv st) :
    StInv (step st (.wsOpen c)) := by
  by_cases hcn : st.conns c = ConnState.connecting
  · rcases hfind : st.sessions.find? (fun s => s.ws = c) with _ | sess
    · have hstep : step st (.wsOpen c) =
          { st with conns := setConn st.conns c ConnState.opened } := by
        simp [step, hcn, hfind]
      rw [hstep]
      refine ⟨?_, ?_, ?_, ?_, ?_, ?_, ?_, ?_⟩ <;> (try dsimp only)
      · exact hI.ws_lt
      · exact hI.ws_inj
      · exact hI.prev_lt
      · intro s hs hop p hp
        have hne : s.ws ≠ c := by
          intro he
          have := List.find?_eq_none.1 hfind s hs
          simp [he] at this
        rw [setConn_other _ _ _ hne] at hop
        have hpc := hI.opened_prev s hs hop p hp
        have hpne : p ≠ c := by
          intro he
          rw [he, hcn] at hpc
          exact absurd hpc (by decide)
        rw [setConn_other _ _ _ hpne]
        exact hpc
      · exact hI.keys_seen
      · exact hI.deliv_ok
      · exact hI.cur_next
      · exact hI.handle_wf
    · have hmem : sess ∈ st.sessions := List.mem_of_find?_eq_some hfind
      have hws : sess.ws = c := by
        have := List.find?_some hfind
        simpa using this
      have hstep : step st (.wsOpen c) =
          { st with
            conns := closeOpt (setConn st.conns c ConnState.opened) sess.previousWs } := by
        simp [step, hcn, hfind]
      rw [hstep]
      refine ⟨?_, ?_, ?_, ?_, ?_, ?_, ?_, ?_⟩ <;> (try dsimp only)
      · exact hI.ws_lt
      · exact hI.ws_inj
      · exact hI.prev_lt
      · intro s hs hop p hp
        by_cases hsc : s.ws = c
        · have hse : s = sess := hI.ws_inj s hs sess hmem (by rw [hsc, hws])
          subst hse
          rw [hp]
          simp only [closeOpt]
          exact setConn_self _ _ _
        · have hops : st.conns s.ws = ConnState.opened := by
            rcases hprev : sess.previousWs with _ | p0 <;> rw [hprev] at hop
            · simp only [closeOpt] at hop
              rwa [setConn_other _ _ _ hsc] at hop
            · simp only [closeOpt] at hop
              by_cases hsp : s.ws = p0
              · rw [hsp, setConn_self] at hop
                exact absurd hop (by decide)
              · rwa [setConn_other _ _ _ hsp, setConn_other _ _ _ hsc] at hop
          have hpc := hI.opened_prev s hs hops p hp
          have hpcne : p ≠ c := by
            intro he
            rw [he, hcn] at hpc
            exact absurd hpc (by decide)
          rcases hprev : sess.previousWs with _ | p0
          · simp only [closeOpt]
            rwa [setConn_other _ _ _ hpcne]
          · simp only [closeOpt]
            by_cases hpp : p = p0
            · rw [hpp, setConn_self]
            · rw [setConn_other _ _ _ hpp, setConn_other _ _ _ hpcne]
              exact hpc
      · exact hI.keys_seen
      · exact hI.deliv_ok
      · exact hI.cur_next
      · exact hI.handle_wf
  · simp only [step, hcn, if_false]
    exact hI

/-- Invariant preservation for the `message` event. -/
theorem stInv_step_wsMessage (st : ServiceState) (c : Nat) (payload : Payload)
    (now : String) (hI : StInv st) : StInv (step st (.wsMessage c payload now)) := by
  by_cases hop : st.conns c = ConnState.opened
  · rcases hfind : st.sessions.find? (fun s => s.ws = c) with _ | sess
    · simp only [step, hop, if_true, hfind]
      exact hI
    · have hmem : sess ∈ st.sessions := List.mem_of_find?_eq_some hfind
      have hws : sess.ws = c := by
        have := List.find?_some hfind
        simpa using this
      rcases hpm : processMsg sess.dataMap payload now with ⟨newMap, osym⟩
      cases osym with
      | none =>
          simp only [step, hop, if_true, hfind, hpm]
          exact hI
      | some sym =>
          have hstep : step st (.wsMessage c payload now) = { st with
              sessions := st.sessions.map
                (updSession c newMap (sess.seen ++ [sym]))
              deliveries := st.deliveries ++
                [⟨some c, newMap, prevOkB st sess,
                  (newMap.map Prod.fst).all
                    (fun k => (sess.seen ++ [sym]).contains k)⟩] } := by
            simp only [step, hop, if_true, hfind, hpm]
          rw [hstep]
          have hkeys : ∀ k ∈ newMap.map Prod.fst, k ∈ sess.seen ++ [sym] := by
            obtain ⟨q, hq⟩ := processMsg_some hpm
            intro k hk
            rw [hq] at hk
            rcases keys_setKey _ _ _ k hk with h1 | h1
            · subst h1
              exact List.mem_append.2 (Or.inr (by simp))
            · exact List.mem_append.2 (Or.inl (hI.keys_seen sess hmem k h1))
          refine ⟨?_, ?_, ?_, ?_, ?_, ?_, ?_, ?_⟩ <;> (try dsimp only)
          · intro s' hs'
            obtain ⟨s, hs, rfl⟩ := List.mem_map.1 hs'
            rw [updSession_ws]
            exact hI.ws_lt s hs
          · intro s' hs' s'' hs'' he
            obtain ⟨s1, hs1, rfl⟩ := List.mem_map.1 hs'
            obtain ⟨s2, hs2, rfl⟩ := List.mem_map.1 hs''
            rw [updSession_ws, updSession_ws] at he
            rw [hI.ws_inj s1 hs1 s2 hs2 he]
          · intro s' hs' p hp
            obtain ⟨s, hs, rfl⟩ := List.mem_map.1 hs'
            rw [updSession_prev] at hp
            exact hI.prev_lt s hs p hp
          · intro s' hs' hop' p hp
            obtain ⟨s, hs, rfl⟩ := List.mem_map.1 hs'
            rw [updSession_ws] at hop'
            rw [updSession_prev] at hp
            exact hI.opened_prev s hs hop' p hp
          · intro s' hs' k hk
            obtain ⟨s, hs, rfl⟩ := List.mem_map.1 hs'
            unfold updSession at hk ⊢
            by_cases hsc : s.ws = c
            · rw [if_pos hsc] at hk ⊢
              exact hkeys k hk
            · rw [if_neg hsc] at hk ⊢
              exact hI.keys_seen s hs k hk
          · intro d hd
            rcases List.mem_append.1 hd with h1 | h1
            · exact hI.deliv_ok d h1
            · simp only [List.mem_singleton] at h1
              subst h1
              constructor
              · exact prevOkB_true st sess
                  (hI.opened_prev sess hmem (by rw [hws]; exact hop))
              · simp only [List.all_eq_true]
                intro k hk
                have := hkeys k hk
                simpa [List.contains, List.elem_iff] using this
          · exact hI.cur_next
          · exact hI.handle_wf
  · simp only [step, hop, if_false]
    exact hI

/-- Invariant preservation for any event. -/
theorem stInv_step (st : ServiceState) (e : Event) (hI : StInv st) :
    StInv (step st e) := by
  cases e with
  | subscribe symbols => exact stInv_step_subscribe st symbols hI
  | wsOpen c => exact stInv_step_wsOpen st c hI
  | wsMessage c payload now => exact stInv_step_wsMessage st c payload now hI
  | wsRemoteClose c =>
      by_cases hg : st.conns c = ConnState.connecting ∨
          st.conns c = ConnState.opened
      · have hstep : step st (.wsRemoteClose c) = { st with
            conns := setConn st.conns c ConnState.closed
            currentWs := if st.currentWs = some c then none
              else st.currentWs } := by
          simp [step, hg]
        rw [hstep]
        refine stInv_stable st _ (onlyCloses_setConn _ _) rfl rfl ?_
          (Or.inl rfl) (Or.inl rfl) hI
        by_cases hc : st.currentWs = some c
        · right; simp [hc]
        · left; simp [hc]
      · simp only [step, hg, if_false]
        exact hI
  | unsub i =>
      cases hh : st.handles[i]? with
      | none =>
          simp only [step, hh]
          exact hI
      | some h =>
          have hstep : step st (.unsub i) = handleRun st h := by
            simp [step, hh]
          rw [hstep]
          obtain ⟨hc, hs, hhl, hd, hn, hcur⟩ := handleRun_spec st h
          exact stInv_stable st _ hc hs hn hcur (Or.inl hhl) (Or.inl hd) hI

/-- Every reachable state satisfies the invariant. -/
theorem stInv_run (evs : List Event) : StInv (run init evs) := by
  suffices h : ∀ st, StInv st → StInv (run st evs) from h init stInv_init
  induction evs with
  | nil => intro st h; exact h
  | cons e rest ih =>
      intro st h
      exact ih (step st e) (stInv_step st e h)

/-- Core of claim C3: after folding a sequence of valid messages, the
entry under each key is exactly the quote of the most recent message
for that symbol, and absent when no message mentioned the symbol. -/
theorem foldTicks_lookup (ms : List Tick) (hv : ∀ t ∈ ms, validTick t)
    (k : String) :
    lookupKey (foldTicks ms) k =
      ((ms.filter (fun t => t.s = k)).getLast?).map mkQuote := by
  induction ms using List.reverseRecOn with
  | nil => simp [foldTicks, lookupKey]
  | append_singleton ms t ih =>
      have hvt : validTick t := hv t (by simp)
      have hvms : ∀ u ∈ ms, validTick u := fun u hu => hv u (by simp [hu])
      rw [foldTicks_concat, processMsg_valid _ _ _ hvt]
      by_cases hk : t.s = k
      · subst hk
        rw [lookup_setKey_same]
        simp [List.filter_append, mkQuote]
      · rw [lookup_setKey_other _ _ _ _ (fun h => hk h.symm)]
        rw [ih hvms]
        simp [List.filter_append, hk]

theorem setConn_closed_idem (f : Nat → ConnState) (p : Nat) :
    setConn (setConn f p ConnState.closed) p ConnState.closed =
      setConn f p ConnState.closed := by
  funext n
  by_cases h : n = p <;> simp [setConn, h]


/-- C3: within a single session, after any sequence of valid decoded
messages the snapshot handed to the callback has as keys exactly the
symbols occurring in the messages so far, each mapped to the quote
built from the most recent message for that symbol (last-write-wins),
and a further message for one symbol leaves every other symbol's entry
unchanged. -/
theorem C3_snapshot_last_write_wins (ms : List Tick)
    (hv : ∀ t ∈ ms, validTick t) :
    (∀ k, lookupKey (foldTicks ms) k =
      ((ms.filter (fun t => t.s = k)).getLast?).map mkQuote) ∧
    (∀ k, (lookupKey (foldTicks ms) k).isSome = true ↔ k ∈ ms.map Tick.s) ∧
    (∀ t, validTick t → ∀ k, k ≠ t.s →
      lookupKey (foldTicks (ms ++ [t])) k = lookupKey (foldTicks ms) k) := by
  refine ⟨foldTicks_lookup ms hv, ?_, ?_⟩
  · intro k
    rw [foldTicks_lookup ms hv k]
    rw [Option.isSome_map']
    rw [List.getLast?_isSome]
    constructor
    · intro hne
      obtain ⟨t, htm⟩ := List.exists_mem_of_ne_nil _ hne
      have := List.of_mem_filter htm
      simp only [decide_eq_true_eq] at this
      exact List.mem_map.2 ⟨t, List.mem_of_mem_filter htm, this⟩
    · intro hk
      obtain ⟨t, htm, hts⟩ := List.mem_map.1 hk
      intro hnil
      have : t ∈ ms.filter (fun t => t.s = k) :=
        List.mem_filter.2 ⟨htm, by simp [hts]⟩
      rw [hnil] at this
      simp at this
  · intro t ht k hk
    rw [foldTicks_concat, processMsg_valid _ _ _ ht]
    exact lookup_setKey_other _ _ _ _ hk

/-- Witness for C3 at the two-symbol scenario of the spec. -/
theorem C3_snapshot_last_write_wins_witness :
    (∀ t ∈ [tickSpec, tickEth], validTick t) ∧
    (∀ k, lookupKey (foldTicks [tickSpec, tickEth]) k =
      (([tickSpec, tickEth].filter (fun t => t.s = k)).getLast?).map
        mkQuote) :=
  ⟨by decide, (C3_snapshot_last_write_wins [tickSpec, tickEth] (by decide)).1⟩

/-- C5: a message whose payload fails to parse, or lacks a usable symbol
or last-price field, leaves the snapshot unchanged and invokes no
callback; at the service level the whole state is unchanged (and the
handler, being a total function, raises nothing). -/
theorem C5_invalid_message_ignored (p : Payload)
    (hp : payloadValid p = false) :
    (∀ (m : MarketDataMap) (now : String), processMsg m p now = (m, none)) ∧
    (∀ (st : ServiceState) (c : Nat) (now : String),
      step st (.wsMessage c p now) = st) := by
  have hmain : ∀ (m : MarketDataMap) (now : String),
      processMsg m p now = (m, none) := by
    intro m now
    cases p with
    | malformed => rfl
    | parsed d =>
        cases d with
        | none => rfl
        | some r =>
            rcases hrs : r.s with _ | s <;> rcases hrc : r.c with _ | c <;>
              simp only [processMsg, hrs, hrc]
            rw [if_neg]
            rintro ⟨h1, h2⟩
            simp [payloadValid, hrs, hrc, jsTruthy, h1, h2] at hp
  refine ⟨hmain, ?_⟩
  intro st c now
  by_cases hop : st.conns c = ConnState.opened
  · rcases hfind : st.sessions.find? (fun s => s.ws = c) with _ | sess
    · simp only [step, hop, if_true, hfind]
    · simp only [step, hop, if_true, hfind, hmain sess.dataMap now]
  · simp only [step, hop, if_false]

/-- Witness for C5 at an unparseable payload and at a payload missing
its price field. -/
theorem C5_invalid_message_ignored_witness :
    (payloadValid Payload.malformed = false ∧
      processMsg [] Payload.malformed "T0" = ([], none)) ∧
    (payloadValid (Payload.parsed (some ⟨some "BTCUSDT", none, none, none,
        none, none⟩)) = false ∧
      step init (.wsMessage 0 (Payload.parsed (some ⟨some "BTCUSDT", none,
        none, none, none, none⟩)) "T0") = init) :=
  ⟨⟨by decide, (C5_invalid_message_ignored Payload.malformed (by decide)).1
      [] "T0"⟩,
   ⟨by decide, (C5_invalid_message_ignored (Payload.parsed (some ⟨some
      "BTCUSDT", none, none, none, none, none⟩)) (by decide)).2 init 0 "T0"⟩⟩

/-- C6 counterexample: after a first BTCUSDT message with last price
"100" (and high "110", low "90"), a second BTCUSDT message with last
price "200" that omits the optional high, low and percent fields is
stored with high = low = "200" — the new message's own last price —
and percent-change "0", not the previously known price "100" (nor the
previous high/low).  This refutes the claim that omitted optional
fields default to the previous known price for that symbol. -/
theorem C6_counterexample :
    lookupKey (foldTicks [tickBTC1]) "BTCUSDT" =
      some ⟨"BTCUSDT", "100", "1", "90", "110", "T0", "5", "binance"⟩ ∧
    lookupKey (foldTicks [tickBTC1, tickBTC2]) "BTCUSDT" =
      some ⟨"BTCUSDT", "200", "1", "200", "200", "T1", "0", "binance"⟩ := by
  decide

/-- C6 as amended: a new message for a symbol fully replaces that
symbol's previous quote, independently of any previously stored state
(no partial merge); an omitted high or low defaults to the message's
own last price, and an omitted percent-change defaults to "0". -/
theorem C6_full_replace_and_defaults (t : Tick) (ht : validTick t)
    (ms : List Tick) :
    lookupKey (foldTicks (ms ++ [t])) t.s = some (mkQuote t) ∧
    (t.h = none → (mkQuote t).highest = t.c) ∧
    (t.l = none → (mkQuote t).lowest = t.c) ∧
    (t.P = none → (mkQuote t).daily_change_percentage = "0") := by
  refine ⟨?_, ?_, ?_, ?_⟩
  · rw [foldTicks_concat, processMsg_valid _ _ _ ht]
    exact lookup_setKey_same _ _ _
  · intro h; simp [mkQuote, toMarketSymbolData, h]
  · intro h; simp [mkQuote, toMarketSymbolData, h]
  · intro h; simp [mkQuote, toMarketSymbolData, h]

/-- Witness for the amended C6 at the concrete two-message run. -/
theorem C6_full_replace_and_defaults_witness :
    validTick tickBTC2 ∧
    lookupKey (foldTicks ([tickBTC1] ++ [tickBTC2])) tickBTC2.s =
      some (mkQuote tickBTC2) :=
  ⟨by decide, (C6_full_replace_and_defaults tickBTC2 (by decide) [tickBTC1]).1⟩

/-- C7 counterexample: a message carrying the lowercase symbol
"btcusdt" is folded under the key "btcusdt" verbatim, with the quote's
own symbol field "btcusdt"; nothing is stored under "BTCUSDT".  The
decoder performs no uppercase normalization. -/
theorem C7_counterexample :
    lookupKey (foldTicks [tickLower]) "BTCUSDT" = none ∧
    (lookupKey (foldTicks [tickLower]) "btcusdt").map
      MarketSymbolData.symbol = some "btcusdt" := by decide

/-- C7 as amended: the decoder stores the quote under the symbol string
exactly as carried in the message, and the quote's symbol field is that
string verbatim; snapshot keys are uppercase only insofar as the feed
itself sends uppercase symbols. -/
theorem C7_verbatim_symbol_key (t : Tick) (ht : validTick t) :
    foldTicks [t] = [(t.s, mkQuote t)] ∧ (mkQuote t).symbol = t.s := by
  constructor
  · show foldTicks ([] ++ [t]) = _
    rw [foldTicks_concat, processMsg_valid _ _ _ ht]
    rfl
  · rfl

/-- Witness for the amended C7 at the lowercase-symbol message. -/
theorem C7_verbatim_symbol_key_witness :
    validTick tickLower ∧
    foldTicks [tickLower] = [(tickLower.s, mkQuote tickLower)] :=
  ⟨by decide, (C7_verbatim_symbol_key tickLower (by decide)).1⟩

/-- C8: `subscribeMarketData([], cb)` opens no connection (no session is
created, no socket id is allocated, socket states at most move to
closed), invokes the callback exactly once with the empty snapshot,
and returns the no-op handle, whose invocation changes nothing in any
state. -/
theorem C8_empty_subscribe (st : ServiceState) :
    (step st (Event.subscribe [])).sessions = st.sessions ∧
    (step st (Event.subscribe [])).nextId = st.nextId ∧
    (∀ n, (step st (Event.subscribe [])).conns n = st.conns n ∨
      (step st (Event.subscribe [])).conns n = ConnState.closed) ∧
    (step st (Event.subscribe [])).deliveries =
      st.deliveries ++ [⟨none, [], true, true⟩] ∧
    (step st (Event.subscribe [])).handles = st.handles ++ [Handle.noop] ∧
    (∀ st' : ServiceState, handleRun st' Handle.noop = st') := by
  have hstep : step st (Event.subscribe []) = { st with
      conns := closeOpt st.conns st.currentWs
      currentWs := none
      deliveries := st.deliveries ++ [⟨none, [], true, true⟩]
      handles := st.handles ++ [Handle.noop] } := by
    simp [step, trimSymbols]
  rw [hstep]
  exact ⟨rfl, rfl, fun n => onlyCloses_closeOpt st.conns st.currentWs n,
    rfl, rfl, fun st' => rfl⟩

/-- C10: line 43 trims each input symbol, uppercases it, and drops the
entries that are empty after trimming; consequently a call whose
symbols are all whitespace-only behaves exactly like a call with the
empty symbol list. -/
theorem C10_trim_filter_uppercase :
    (∀ (symbols : List String) (u : String),
      u ∈ trimSymbols symbols ↔
        u ≠ "" ∧ ∃ s ∈ symbols, jsToUpper (jsTrim s) = u) ∧
    (∀ (st : ServiceState) (symbols : List String),
      (∀ s ∈ symbols, jsTrim s = "") →
      step st (Event.subscribe symbols) = step st (Event.subscribe [])) := by
  constructor
  · intro symbols u
    simp only [trimSymbols, List.mem_filter, List.mem_map,
      decide_eq_true_eq]
    tauto
  · intro st symbols h
    have hemp : jsToUpper "" = "" := by decide
    have htr : trimSymbols symbols = [] := by
      rw [trimSymbols, List.filter_eq_nil_iff]
      intro u hu
      obtain ⟨s, hs, rfl⟩ := List.mem_map.1 hu
      rw [h s hs, hemp]
      simp
    have htr0 : trimSymbols [] = [] := rfl
    simp [step, htr, htr0]

/-- Witness for C10 at a whitespace-only symbol list. -/
theorem C10_trim_filter_uppercase_witness :
    (∀ s ∈ ["   ", " "], jsTrim s = "") ∧
    step init (Event.subscribe ["   ", " "]) = step init (Event.subscribe []) :=
  ⟨by decide, C10_trim_filter_uppercase.2 init ["   ", " "] (by decide)⟩

/-- C1: at the moment any session delivery reaches the callback, the
delivering session's `previousWs` — the connection that was current
when the session was created, i.e. the superseded session's connection
— is already closed (the recorded ghost `prevOk` is true on every
logged delivery, in every reachable state); and a `subscribe` call
with a non-empty trimmed symbol set records exactly the then-current
connection as the new session's `previousWs`, so for consecutive
`subscribe(S1, cb)`, `subscribe(S2, cb)` the connection opened for S1
is closed before any message of S2's session is delivered to `cb`. -/
theorem C1_old_conn_closed_before_new_delivery (evs : List Event) :
    (∀ d ∈ (run init evs).deliveries, d.prevOk = true) ∧
    (∀ symbols, trimSymbols symbols ≠ [] →
      (step (run init evs) (Event.subscribe symbols)).sessions =
        (run init evs).sessions ++
          [⟨(run init evs).nextId, (run init evs).currentWs,
            trimSymbols symbols, [], []⟩]) := by
  constructor
  · exact fun d hd => ((stInv_run evs).deliv_ok d hd).1
  · intro symbols htr
    simp [step, htr]

/-- Witness for C1 at a concrete trace with one session delivery and a
superseding subscribe call. -/
theorem C1_old_conn_closed_before_new_delivery_witness :
    (delivA ∈ (run init evsOne).deliveries ∧ delivA.prevOk = true) ∧
    (trimSymbols ["b"] ≠ [] ∧
      (step (run init evsOne) (Event.subscribe ["b"])).sessions =
        (run init evsOne).sessions ++
          [⟨(run init evsOne).nextId, (run init evsOne).currentWs,
            trimSymbols ["b"], [], []⟩]) :=
  ⟨⟨by decide, (C1_old_conn_closed_before_new_delivery evsOne).1 delivA
      (by decide)⟩,
   ⟨by decide, (C1_old_conn_closed_before_new_delivery evsOne).2 ["b"]
      (by decide)⟩⟩

/-- C2 counterexample: the code creates the new connection before the
prior one is torn down, and under rapid resubscription two connections
are simultaneously open.  After `subscribe ["a"]`, its socket opening,
`subscribe ["b"]`, `subscribe ["c"]`, and socket 2 opening, socket 0
(session "a") and socket 2 (session "c") are both open: socket 2's
`onopen` closed only its own `previousWs` (socket 1, which never
opened), leaving socket 0 live.  Already after the first three events
two sockets are simultaneously not closed. -/
theorem C2_counterexample :
    ((run init [.subscribe ["a"], .wsOpen 0, .subscribe ["b"],
        .subscribe ["c"], .wsOpen 2]).conns 0 = ConnState.opened ∧
      (run init [.subscribe ["a"], .wsOpen 0, .subscribe ["b"],
        .subscribe ["c"], .wsOpen 2]).conns 2 = ConnState.opened) ∧
    ((run init [.subscribe ["a"], .wsOpen 0, .subscribe ["b"]]).conns 0 =
        ConnState.opened ∧
      (run init [.subscribe ["a"], .wsOpen 0, .subscribe ["b"]]).conns 1 =
        ConnState.connecting) := by decide

/-- C2 as amended: at every reachable state, any session whose socket
is open has its immediately superseded session's connection already
closed; teardown of the prior connection happens when the new
connection opens (or at once when the new symbol set is empty), not
when the new connection is created, and only the immediate predecessor
is guaranteed closed. -/
theorem C2_open_session_has_closed_predecessor (evs : List Event) :
    ∀ s ∈ (run init evs).sessions,
      (run init evs).conns s.ws = ConnState.opened →
      ∀ p, s.previousWs = some p →
        (run init evs).conns p = ConnState.closed :=
  (stInv_run evs).opened_prev

/-- Witness for the amended C2: after a resubscription whose socket has
opened, the superseded connection is closed. -/
theorem C2_open_session_has_closed_predecessor_witness :
    ((⟨1, some 0, ["B"], [], []⟩ : Session) ∈
      (run init [.subscribe ["a"], .wsOpen 0, .subscribe ["b"],
        .wsOpen 1]).sessions ∧
      (run init [.subscribe ["a"], .wsOpen 0, .subscribe ["b"],
        .wsOpen 1]).conns 1 = ConnState.opened) ∧
    (run init [.subscribe ["a"], .wsOpen 0, .subscribe ["b"],
      .wsOpen 1]).conns 0 = ConnState.closed :=
  ⟨⟨by decide, by decide⟩,
    C2_open_session_has_closed_predecessor
      [.subscribe ["a"], .wsOpen 0, .subscribe ["b"], .wsOpen 1]
      ⟨1, some 0, ["B"], [], []⟩ (by decide) (by decide) 0 rfl⟩

/-- C4 counterexample: subscribe to "a", receive one message for "A",
then call `subscribe ["b"]`.  The old socket (id 0) is still open —
it is only closed when the new socket's `onopen` fires — so a further
message on it is delivered to the callback after the second subscribe
call, and that snapshot still contains the key "A" of the old
session.  The next snapshot delivered after the new `subscribe` is
therefore not free of old-session keys. -/
theorem C4_counterexample :
    (run init [.subscribe ["a"], .wsOpen 0,
      .wsMessage 0 (tickPayload tickA) "T0",
      .subscribe ["b"]]).deliveries.length = 1 ∧
    (run init [.subscribe ["a"], .wsOpen 0,
      .wsMessage 0 (tickPayload tickA) "T0",
      .subscribe ["b"],
      .wsMessage 0 (tickPayload tickA) "T1"]).deliveries.length = 2 ∧
    ((run init [.subscribe ["a"], .wsOpen 0,
      .wsMessage 0 (tickPayload tickA) "T0",
      .subscribe ["b"],
      .wsMessage 0 (tickPayload tickA) "T1"]).deliveries.getLast?).map
        (fun d => (lookupKey d.snap "A").isSome) = some true := by decide

/-- C4 as amended: every new session starts from a fresh empty snapshot
(the session appended by a non-empty `subscribe` has an empty
`dataMap`), and every snapshot a session delivers contains only keys
for symbols of messages that same session folded (ghost `freshOk` is
true on every logged delivery); however, until the new connection
opens, the superseded session's still-open connection may keep
delivering its own snapshots — with old-session keys — to the
callback. -/
theorem C4_fresh_session_snapshot (evs : List Event) :
    (∀ symbols, trimSymbols symbols ≠ [] →
      ((step (run init evs) (Event.subscribe symbols)).sessions).getLast? =
        some ⟨(run init evs).nextId, (run init evs).currentWs,
          trimSymbols symbols, [], []⟩) ∧
    (∀ d ∈ (run init evs).deliveries, d.freshOk = true) := by
  constructor
  · intro symbols htr
    simp [step, htr]
  · exact fun d hd => ((stInv_run evs).deliv_ok d hd).2

/-- Witness for the amended C4 at the concrete trace. -/
theorem C4_fresh_session_snapshot_witness :
    (trimSymbols ["b"] ≠ [] ∧
      ((step (run init evsOne) (Event.subscribe ["b"])).sessions).getLast? =
        some ⟨(run init evsOne).nextId, (run init evsOne).currentWs,
          trimSymbols ["b"], [], []⟩) ∧
    (delivA ∈ (run init evsOne).deliveries ∧ delivA.freshOk = true) :=
  ⟨⟨by decide, (C4_fresh_session_snapshot evsOne).1 ["b"] (by decide)⟩,
   ⟨by decide, (C4_fresh_session_snapshot evsOne).2 delivA (by decide)⟩⟩

/-- C9 counterexample: after `subscribe ["a"]` (socket 0, which opens),
`subscribe ["b"]` (socket 1, never opens), `subscribe ["c"]` (socket
2), invoking the cleanup returned by the second call — a session long
since superseded — closes socket 0, which was still open: the
invocation after supersession is not a no-op. -/
theorem C9_counterexample :
    (run init [.subscribe ["a"], .wsOpen 0, .subscribe ["b"],
      .subscribe ["c"]]).conns 0 = ConnState.opened ∧
    (run init [.subscribe ["a"], .wsOpen 0, .subscribe ["b"],
      .subscribe ["c"], .unsub 1]).conns 0 = ConnState.closed := by decide

/-- C9 as amended: the cleanup closure is total (never throws) and can
be invoked in any state; invoking the same closure a second time is a
no-op (the states after one and after two invocations are equal); and
an invocation after the session has been superseded leaves the current
connection designation and the current session's socket untouched —
though, as the counterexample shows, it may still close the stale,
still-open socket that its session had superseded. -/
theorem C9_unsub_idempotent_and_safe (evs : List Event) :
    (∀ (st : ServiceState) (h : Handle),
      handleRun (handleRun st h) h = handleRun st h) ∧
    (∀ c p, Handle.conn c p ∈ (run init evs).handles →
      (run init evs).currentWs ≠ some c →
      (handleRun (run init evs) (Handle.conn c p)).currentWs =
        (run init evs).currentWs ∧
      (∀ d, (run init evs).currentWs = some d →
        (handleRun (run init evs) (Handle.conn c p)).conns d =
          (run init evs).conns d)) := by
  constructor
  · intro st h
    cases h with
    | noop => rfl
    | conn c prev =>
        cases prev with
        | none =>
            simp only [handleRun]
            by_cases hcur : st.currentWs = some c
            · rw [if_pos hcur]
              rw [if_neg (by simp)]
            · rw [if_neg hcur, if_neg hcur]
        | some p =>
            simp only [handleRun]
            by_cases hcur : st.currentWs = some c
            · rw [if_pos hcur]
              try dsimp only
              rw [if_neg (by simp)]
              try dsimp only
              rw [setConn_closed_idem]
            · rw [if_neg hcur]
              try dsimp only
              rw [if_neg hcur]
              try dsimp only
              rw [setConn_closed_idem]
  · intro c p hmem hne
    obtain ⟨hc1, hc2⟩ := (stInv_run evs).handle_wf _ hmem c p rfl
    constructor
    · simp only [handleRun, if_neg hne]
      cases p with
      | none => rfl
      | some q => rfl
    · intro d hd
      simp only [handleRun, if_neg hne]
      cases p with
      | none => rfl
      | some q =>
          dsimp only
          have hq : q < c := hc2 q rfl
          have hdn := (stInv_run evs).cur_next d hd
          have hne' : d ≠ q := by omega
          exact setConn_other _ _ _ hne'

/-- Witness for the amended C9: invoking the first session's cleanup
after a superseding subscribe leaves the current connection untouched. -/
theorem C9_unsub_idempotent_and_safe_witness :
    (Handle.conn 0 none ∈
      (run init [.subscribe ["a"], .subscribe ["b"]]).handles ∧
      (run init [.subscribe ["a"], .subscribe ["b"]]).currentWs ≠ some 0) ∧
    (handleRun (run init [.subscribe ["a"], .subscribe ["b"]])
        (Handle.conn 0 none)).currentWs =
      (run init [.subscribe ["a"], .subscribe ["b"]]).currentWs :=
  ⟨⟨by decide, by decide⟩,
    ((C9_unsub_idempotent_and_safe [.subscribe ["a"], .subscribe ["b"]]).2
      0 none (by decide) (by decide)).1⟩
